import Mathlib

/-!
Shallow embedding of the flap sniper bot's stop-loss monitor
(`stoploss/stoploss.go`) and of the event listener's reconnect logic
(`listener.go`), together with proofs of the specification claims.

Modelling conventions:
* `big.Int` token balances and prices are `Nat` (ERC-20 balances and
  swap quotes are unsigned 256-bit values, always non-negative);
  `big.Int` quantities that flow through `calculateDropPercent` are
  modelled as `Int`, and Lean's `Int` division `/` is Euclidean
  division, exactly the semantics of Go's `big.Int.Div`.
* Go `int` values (wallet index, stop-loss percent) are `Int`.
* Every external chain call (balance query, price query, approve
  transaction, sell transaction) is modelled by an oracle record that
  supplies the call's outcome; `Option`/`Bool` encode success/failure.
* The monitor's side effects (approve and sell transactions it sends)
  are collected in a `Call` trace so that at-most-once and
  never-oversell properties can be stated.  Each `Call.sell` carries a
  `SellSource` tag recording which call site (take-profit or
  stop-loss) emitted it; this is ghost provenance information only.
* The positions map `map[string]*Position` is an association list
  keyed by the list of Unicode code points of the Go key string
  (Go string equality coincides with code-point-sequence equality,
  since UTF-8 encoding is injective on scalar-value sequences).
-/

/-- Source `stoploss.go` constant `TakeProfitSellPercent = 70`. -/
def TakeProfitSellPercent : Nat := 70

/-- Source `listener.go` constant `maxReconnectAttempts = 10`. -/
def maxReconnectAttempts : Nat := 10

/-- Position record from `stoploss.go` (`type Position struct`).  The
`Swapper` field is a handle used only to issue external calls, which are
modelled by oracles, so it is omitted.  Addresses are the 160-bit value
of the `common.Address`. -/
structure Position where
  tokenAddress : Nat
  buyPriceWei : Nat
  tokenAmount : Nat
  initialTokenAmount : Nat
  walletIndex : Int
  sold : Bool
  approved : Bool
  takeProfitDone : Bool
deriving DecidableEq, Repr

/-- Which call site of the monitor emitted a sell transaction
(ghost provenance tag; both sites call the same `SellToken`). -/
inductive SellSource where
  | takeProfit
  | stopLoss
deriving DecidableEq, Repr

/-- An external transaction attempted by the monitor, with its outcome. -/
inductive Call where
  | approve (token : Nat) (amount : Nat) (ok : Bool)
  | sell (src : SellSource) (token : Nat) (amount : Nat) (ok : Bool)
deriving DecidableEq, Repr

/-- Outcomes the chain supplies for one `executeSell` invocation:
whether `ApproveToken` would succeed and whether `SellToken` would. -/
structure SellEnv where
  approveOk : Bool
  sellOk : Bool
deriving DecidableEq, Repr

/-- The unlimited-allowance amount `2^256 - 1` hard-coded in
`executeSell` (`maxApprove.SetString("115792...935", 10)`). -/
def maxApprove : Nat :=
  115792089237316195423570985008687907853269984665640564039457584007913129639935

/-- Embedding of `(m *StopLossMonitor) executeSell`.  If the position is
not yet approved, an unlimited approval is attempted first; approval
failure aborts (no sell is attempted and the approved flag stays
false).  On approval success the flag is set and the sell is attempted.
The sell's own failure only affects logging, not state.  Returns the
updated position and the transactions attempted. -/
def executeSell (pos : Position) (amount : Nat) (env : SellEnv)
    (src : SellSource) : Position × List Call :=
  if pos.approved then
    (pos, [Call.sell src pos.tokenAddress amount env.sellOk])
  else if env.approveOk then
    ({ pos with approved := true },
      [Call.approve pos.tokenAddress maxApprove true,
       Call.sell src pos.tokenAddress amount env.sellOk])
  else
    (pos, [Call.approve pos.tokenAddress maxApprove false])

/-- The take-profit threshold test of `checkTakeProfit`: Go computes
`priceUSDT := float64(usdtAmount) / 1e18` and compares
`priceUSDT >= TakeProfitPriceUSDT` with `TakeProfitPriceUSDT = 0.0002`.
We model the comparison exactly over the rationals:
`usdtAmount / 10^18 ≥ 2 / 10^4` iff `2 * 10^18 ≤ usdtAmount * 10^4`. -/
def tpThresholdMet (usdtAmount : Nat) : Bool :=
  decide (2 * 10 ^ 18 ≤ usdtAmount * 10 ^ 4)

/-- Oracle for one position's evaluation in one tick of
`checkPositions`: the results of `GetTokenBalance`,
`GetTokenPriceInUSDT` (valuation of one token unit, used by the
take-profit check), `GetTokenPrice` (native valuation of the tracked
balance, used by the stop-loss check), and the outcomes of the approve
and sell transactions for the take-profit and the stop-loss call sites
of `executeSell`.  `none` means the chain call returned an error. -/
structure PosEnv where
  balance : Option Nat
  usdt : Option Nat
  tpSell : SellEnv
  price : Option Nat
  slSell : SellEnv
deriving DecidableEq, Repr

/-- Embedding of `(m *StopLossMonitor) checkTakeProfit`.  The `oneToken`
argument of the USDT price query (`min(10^18, pos.TokenAmount)`) only
parameterises the oracle query, whose answer `env.usdt` already
incorporates it.  On a qualifying valuation, 70% of the initial amount
(integer division by 100), capped at the current balance, is sold, and
`takeProfitDone` is set whether or not the amount was positive and
whether or not the sell succeeded. -/
def checkTakeProfit (pos : Position) (env : PosEnv) : Position × List Call :=
  match env.usdt with
  | none => (pos, [])
  | some usdtAmount =>
    if tpThresholdMet usdtAmount then
      let sellAmount0 := pos.initialTokenAmount * TakeProfitSellPercent / 100
      let sellAmount :=
        if pos.tokenAmount < sellAmount0 then pos.tokenAmount else sellAmount0
      if 0 < sellAmount then
        let res := executeSell pos sellAmount env.tpSell SellSource.takeProfit
        ({ res.1 with takeProfitDone := true }, res.2)
      else
        ({ pos with takeProfitDone := true }, [])
    else
      (pos, [])

/-- Embedding of `(m *StopLossMonitor) calculateDropPercent` over `Int`
(the domain of `big.Int`).  Lean's `Int` division is Euclidean, the
same as Go's `big.Int.Div`; on the reachable domain both operands are
non-negative, where the quotient lies in `[0, 100]`, so the final Go
narrowing `int(percent.Int64())` is lossless. -/
def calculateDropPercent (buyPrice currentPrice : Int) : Int :=
  if buyPrice = 0 then 0
  else
    let diff := buyPrice - currentPrice
    if diff ≤ 0 then 0
    else diff * 100 / buyPrice

/-- The guarded take-profit step of `checkPositions`:
`if !pos.TakeProfitDone { m.checkTakeProfit(pos) }`. -/
def tpStep (pos : Position) (env : PosEnv) : Position × List Call :=
  if pos.takeProfitDone then (pos, []) else checkTakeProfit pos env

/-- The body of one position's evaluation in `checkPositions`, after
the `pos.Sold` skip test: refresh the balance (skip the position on
error or non-positive balance), run the take-profit check unless it
already fired, query the current price (skip on error), and on a drop
at or above the threshold execute a full sell of the tracked balance
and delete the position (`none`) — the deletion in the Go source is
unconditional on the sell's outcome. -/
def checkPositionLive (stopLossPercent : Int) (pos : Position)
    (env : PosEnv) : Option Position × List Call :=
  match env.balance with
  | none => (some pos, [])
  | some balance =>
    if balance = 0 then (some pos, [])
    else
      let pos1 := { pos with tokenAmount := balance }
      let tp := tpStep pos1 env
      match env.price with
      | none => (some tp.1, tp.2)
      | some currentPrice =>
        let dropPercent :=
          calculateDropPercent (tp.1.buyPriceWei : Int) (currentPrice : Int)
        if stopLossPercent ≤ dropPercent then
          let sl := executeSell tp.1 tp.1.tokenAmount env.slSell
            SellSource.stopLoss
          (none, tp.2 ++ sl.2)
        else
          (some tp.1, tp.2)

/-- One position's evaluation in one tick of `checkPositions`:
positions with `Sold = true` are skipped entirely. -/
def checkPosition (stopLossPercent : Int) (pos : Position)
    (env : PosEnv) : Option Position × List Call :=
  if pos.sold then (some pos, []) else checkPositionLive stopLossPercent pos env

/-- A position's lifetime under the monitor: one `checkPosition` per
tick, fed by a list of per-tick oracles, stopping when the position is
deleted.  Returns the final state (`none` if deleted) and the
concatenated transaction trace. -/
def runTicks (stopLossPercent : Int) :
    Position → List PosEnv → Option Position × List Call
  | pos, [] => (some pos, [])
  | pos, env :: envs =>
    match checkPosition stopLossPercent pos env with
    | (none, calls) => (none, calls)
    | (some pos', calls) =>
      let rest := runTicks stopLossPercent pos' envs
      (rest.1, calls ++ rest.2)

/-- Keys of the positions map, as the code-point sequence of the Go
key string. -/
abbrev Key := List Nat

/-- Association-list lookup, modelling Go map indexing. -/
def lookupKV : List (Key × Position) → Key → Option Position
  | [], _ => none
  | (k', v') :: rest, k => if k' = k then some v' else lookupKV rest k

/-- Association-list insert, modelling Go map assignment
`m.positions[key] = &Position{...}`: overwrites an existing entry for
the key, otherwise appends. -/
def insertKV : List (Key × Position) → Key → Position → List (Key × Position)
  | [], k, v => [(k, v)]
  | (k', v') :: rest, k, v =>
    if k' = k then (k, v) :: rest else (k', v') :: insertKV rest k v

/-- Lowercase hexadecimal digit character code (`0`–`9`, `a`–`f`). -/
def hexDigit (n : Nat) : Nat := if n < 10 then 48 + n else 87 + n

/-- Fixed-width big-endian base-16 digit characters of `a` (`k`
digits). -/
def hexDigitsAux : Nat → Nat → List Nat
  | 0, _ => []
  | k + 1, a => hexDigitsAux k (a / 16) ++ [hexDigit (a % 16)]

/-- Code points of `common.Address.Hex()` for the 160-bit address
value `a`: `"0x"` followed by 40 hex digits.  (The real `Hex()` applies
EIP-55 checksum casing, a case change determined by the address; it
maps distinct addresses to distinct strings for exactly the same
reason as the lowercase rendering modelled here, and the collision
analysis below is unaffected by casing.) -/
def addressHex (a : Nat) : List Nat := 48 :: 120 :: hexDigitsAux 40 a

/-- Two's-complement wrap of an integer into `int32`, modelling the Go
conversion `rune(walletIndex)` from a (64-bit) `int`. -/
def int32wrap (i : Int) : Int := (i + 2 ^ 31) % 2 ^ 32 - 2 ^ 31

/-- Code point produced by Go's `string(r)` for `r = rune(i)`:
the code point itself when it is a valid Unicode scalar value
(in `[0, 0x10FFFF]` and not a surrogate in `[0xD800, 0xDFFF]`),
otherwise the replacement character U+FFFD. -/
def goRuneOfInt (i : Int) : Nat :=
  let r := int32wrap i
  if 0 ≤ r ∧ r < 55296 then r.toNat
  else if 57344 ≤ r ∧ r ≤ 1114111 then r.toNat
  else 65533

/-- Embedding of `positionKey`:
`tokenAddress.Hex() + "-" + string(rune(walletIndex))`, as the key
string's code-point sequence (45 is `-`). -/
def positionKey (walletIndex : Int) (tokenAddress : Nat) : Key :=
  addressHex tokenAddress ++ [45] ++ [goRuneOfInt walletIndex]

/-- Oracle for one `AddPosition` call: the results of the
`GetTokenBalance` and `GetTokenPrice` queries. -/
structure AddEnv where
  balance : Option Nat
  price : Option Nat
deriving DecidableEq, Repr

/-- Embedding of `(m *StopLossMonitor) AddPosition`.  A failed balance
query or a non-positive balance drops the registration (the map is
returned unchanged).  A failed initial price query falls back to the
caller-supplied `buyAmountWei` as the reference price.  The new
position is inserted under `positionKey`, overwriting any existing
entry with the same key. -/
def addPosition (m : List (Key × Position)) (walletIndex : Int)
    (tokenAddress : Nat) (buyAmountWei : Nat) (env : AddEnv) :
    List (Key × Position) :=
  match env.balance with
  | none => m
  | some balance =>
    if balance = 0 then m
    else
      let currentPrice :=
        match env.price with
        | none => buyAmountWei
        | some p => p
      insertKV m (positionKey walletIndex tokenAddress)
        { tokenAddress := tokenAddress
          buyPriceWei := currentPrice
          tokenAmount := balance
          initialTokenAmount := balance
          walletIndex := walletIndex
          sold := false
          approved := false
          takeProfitDone := false }

/-- Embedding of one tick of `(m *StopLossMonitor) checkPositions` over
the whole map.  Go's map iteration order is unspecified, but each
entry's evaluation reads and writes only that entry (and deletes only
its own key), so the entries are processed independently; we process
them in list order.  `env` supplies each key's oracles for this tick. -/
def checkPositions (stopLossPercent : Int) (m : List (Key × Position))
    (env : Key → PosEnv) : List (Key × Position) × List Call :=
  match m with
  | [] => ([], [])
  | (k, pos) :: rest =>
    let r := checkPositions stopLossPercent rest env
    match checkPosition stopLossPercent pos (env k) with
    | (none, calls) => (r.1, calls ++ r.2)
    | (some pos', calls) => ((k, pos') :: r.1, calls ++ r.2)

/-- Outcome the chain supplies for one reconnect attempt in
`(l *EventListener) reconnect`: whether `ethclient.Dial` succeeds and
whether the follow-up `BlockNumber` probe on the fresh client
succeeds. -/
structure AttemptEnv where
  dialOk : Bool
  probeOk : Bool
deriving DecidableEq, Repr

/-- An attempt succeeds when the dial and the validation probe both
succeed. -/
def attemptOk (e : AttemptEnv) : Bool := e.dialOk && e.probeOk

/-- The reconnect loop of `(l *EventListener) reconnect` from attempt
number `attempt` on: up to `maxReconnectAttempts` numbered attempts;
the first succeeding attempt's number is returned (ghost information
recording which attempts were made), and exhaustion returns the
loop's final error.  The linearly growing inter-attempt sleep has no
observable effect in this model. -/
def reconnectFrom (env : Nat → AttemptEnv) (attempt : Nat) :
    Except String Nat :=
  if h : attempt ≤ maxReconnectAttempts then
    if attemptOk (env attempt) then Except.ok attempt
    else reconnectFrom env (attempt + 1)
  else Except.error "failed to reconnect after 10 attempts"
termination_by maxReconnectAttempts + 1 - attempt
decreasing_by simp [maxReconnectAttempts] at h ⊢; omega

/-- Embedding of `(l *EventListener) reconnect`: attempts are numbered
from 1. -/
def reconnect (env : Nat → AttemptEnv) : Except String Nat :=
  reconnectFrom env 1

/-- One iteration of the `for` loop in `(l *EventListener) Start`:
whether the top-level `ctx.Done()` case fires, what `subscribe`
returned (`none` models a nil error: subscribe exited because the
context was cancelled), whether `ctx.Done()` fires in the inner select
after a subscribe error, and the chain outcomes for the reconnect
attempts of this iteration. -/
structure Round where
  ctxDoneTop : Bool
  subscribeErr : Option String
  ctxDoneAfter : Bool
  reconnectEnv : Nat → AttemptEnv

/-- Embedding of the main loop of `(l *EventListener) Start` over a
finite trace of loop iterations.  `some none` is a clean (context
cancelled) exit returning nil, `some (some e)` is `Start` returning
the error `e` (only a failed reconnect produces this), and `none`
means the trace was exhausted with the loop still running. -/
def startLoop : List Round → Option (Option String)
  | [] => none
  | r :: rs =>
    if r.ctxDoneTop then some none
    else
      match r.subscribeErr with
      | none => startLoop rs
      | some _ =>
        if r.ctxDoneAfter then some none
        else
          match reconnect r.reconnectEnv with
          | Except.error e => some (some e)
          | Except.ok _ => startLoop rs

/-- True for a sell transaction emitted by the take-profit call site. -/
def isTPSell : Call → Bool
  | Call.sell SellSource.takeProfit _ _ _ => true
  | _ => false

/-- True for a successfully executed approval transaction. -/
def isOkApprove : Call → Bool
  | Call.approve _ _ true => true
  | _ => false

/-- True for any approval transaction attempt. -/
def isApprove : Call → Bool
  | Call.approve _ _ _ => true
  | _ => false

/-- True for a sell transaction reported successful by the chain,
regardless of call site. -/
def isOkSell : Call → Bool
  | Call.sell _ _ _ true => true
  | _ => false

/-- Number of take-profit sell transactions in a trace. -/
def countTPSell (calls : List Call) : Nat := calls.countP (fun c => isTPSell c)

/-- Number of successful approval transactions in a trace. -/
def countOkApprove (calls : List Call) : Nat :=
  calls.countP (fun c => isOkApprove c)

/-- All positions in a map are unsold. -/
def allNotSold (m : List (Key × Position)) : Prop :=
  ∀ kp ∈ m, (kp : Key × Position).2.sold = false

/-- Whether this tick's USDT valuation query succeeded and met the
take-profit threshold (the guard of `checkTakeProfit`'s firing
branch). -/
def tpHit (env : PosEnv) : Bool :=
  match env.usdt with
  | none => false
  | some u => tpThresholdMet u

/-- Sample position: stop-loss eligible (reference price 100), with
the take-profit check already fired and approval not yet granted. -/
def cPos : Position :=
  { tokenAddress := 7, buyPriceWei := 100, tokenAmount := 50,
    initialTokenAmount := 50, walletIndex := 0, sold := false,
    approved := false, takeProfitDone := true }

/-- Sample tick oracle: the balance query succeeds (50), the price
query reports a total collapse (0), and the approval transaction
fails. -/
def cEnv : PosEnv :=
  { balance := some 50, usdt := none, tpSell := ⟨false, false⟩,
    price := some 0, slSell := ⟨false, false⟩ }

/-- Sample position for witnesses: already approved, stop-loss
eligible. -/
def sPos : Position :=
  { tokenAddress := 9, buyPriceWei := 100, tokenAmount := 10,
    initialTokenAmount := 10, walletIndex := 0, sold := false,
    approved := true, takeProfitDone := true }

/-- Sample tick oracle for witnesses: everything succeeds and the
price has collapsed to 0. -/
def sEnv : PosEnv :=
  { balance := some 10, usdt := none, tpSell := ⟨true, true⟩,
    price := some 0, slSell := ⟨true, true⟩ }

/-- Sample position for the take-profit witnesses: unsold, not yet
approved, take-profit not yet fired, initial amount 100. -/
def tPos : Position :=
  { tokenAddress := 3, buyPriceWei := 1000, tokenAmount := 80,
    initialTokenAmount := 100, walletIndex := 1, sold := false,
    approved := false, takeProfitDone := false }

/-- Sample tick oracle for the take-profit witnesses: balance 80, the
one-token USDT valuation meets the threshold, every transaction
succeeds, and the native price query reports no drop. -/
def tEnv : PosEnv :=
  { balance := some 80, usdt := some (3 * 10 ^ 14),
    tpSell := ⟨true, true⟩, price := some 1000, slSell := ⟨true, true⟩ }

/-- The position state produced by evaluating `tPos` under `tEnv`:
take-profit fired (70 of 100 initial sold), approved, still live. -/
def tResult : Position :=
  { tokenAddress := 3, buyPriceWei := 1000, tokenAmount := 80,
    initialTokenAmount := 100, walletIndex := 1, sold := false,
    approved := true, takeProfitDone := true }

/-! ## Helper lemmas -/

theorem executeSell_fst : ∀ (pos : Position) (amt : Nat) (env : SellEnv)
    (src : SellSource), (executeSell pos amt env src).1 =
      { pos with approved := pos.approved || env.approveOk } := by
  intro ⟨ta, bp, tam, ia, wi, so, ap, tp⟩ amt ⟨aok, sok⟩ src
  cases ap <;> cases aok <;> simp [executeSell]

theorem executeSell_sell_mem : ∀ (pos : Position) (amt : Nat)
    (env : SellEnv) (src src' : SellSource) (tok amt' : Nat) (ok : Bool),
    Call.sell src' tok amt' ok ∈ (executeSell pos amt env src).2 →
    src' = src ∧ tok = pos.tokenAddress ∧ amt' = amt := by
  intro pos amt ⟨aok, sok⟩ src src' tok amt' ok h
  by_cases hap : pos.approved <;> cases aok <;>
    simp [executeSell, hap] at h <;> simp_all

theorem executeSell_no_approve_of_approved : ∀ (pos : Position)
    (amt : Nat) (env : SellEnv) (src : SellSource),
    pos.approved = true →
    ∀ c ∈ (executeSell pos amt env src).2, isApprove c = false := by
  intro pos amt ⟨aok, sok⟩ src hap c hc
  simp [executeSell, hap] at hc
  simp [hc, isApprove]

theorem executeSell_okApprove : ∀ (pos : Position) (amt : Nat)
    (env : SellEnv) (src : SellSource),
    countOkApprove (executeSell pos amt env src).2 ≤
      (if pos.approved then 0 else 1) ∧
    (executeSell pos amt env src).1.approved =
      (pos.approved ||
        decide (1 ≤ countOkApprove (executeSell pos amt env src).2)) := by
  intro pos amt ⟨aok, sok⟩ src
  by_cases hap : pos.approved <;> cases aok <;>
    simp [executeSell, hap, countOkApprove, isOkApprove,
      List.countP_cons, List.countP_nil]

theorem executeSell_countTPSell_stopLoss : ∀ (pos : Position) (amt : Nat)
    (env : SellEnv),
    countTPSell (executeSell pos amt env SellSource.stopLoss).2 = 0 := by
  intro pos amt ⟨aok, sok⟩
  by_cases hap : pos.approved <;> cases aok <;>
    simp [executeSell, hap, countTPSell, isTPSell,
      List.countP_cons, List.countP_nil]

theorem executeSell_countTPSell_le : ∀ (pos : Position) (amt : Nat)
    (env : SellEnv) (src : SellSource),
    countTPSell (executeSell pos amt env src).2 ≤ 1 := by
  intro pos amt ⟨aok, sok⟩ src
  by_cases hap : pos.approved <;> cases aok <;> cases src <;>
    simp [executeSell, hap, countTPSell, isTPSell,
      List.countP_cons, List.countP_nil]

theorem executeSell_sell_present : ∀ (pos : Position) (amt : Nat)
    (env : SellEnv) (src : SellSource),
    (pos.approved || env.approveOk) = true →
    Call.sell src pos.tokenAddress amt env.sellOk ∈
      (executeSell pos amt env src).2 := by
  intro pos amt ⟨aok, sok⟩ src h
  by_cases hap : pos.approved <;> cases aok <;>
    simp_all [executeSell]

theorem checkTakeProfit_fst : ∀ (pos : Position) (env : PosEnv),
    ∃ ap : Bool, (checkTakeProfit pos env).1 =
      { pos with takeProfitDone := pos.takeProfitDone || tpHit env,
                 approved := pos.approved || ap } := by
  intro pos env
  unfold checkTakeProfit tpHit
  cases hu : env.usdt with
  | none => exact ⟨false, by cases pos <;> simp⟩
  | some u =>
    by_cases ht : tpThresholdMet u
    · simp only [ht, if_true]
      by_cases hpos :
          0 < (if pos.tokenAmount <
                pos.initialTokenAmount * TakeProfitSellPercent / 100 then
                pos.tokenAmount
              else pos.initialTokenAmount * TakeProfitSellPercent / 100)
      · refine ⟨env.tpSell.approveOk, ?_⟩
        simp only [hpos, if_true]
        rw [executeSell_fst]
        cases pos <;> simp
      · refine ⟨false, ?_⟩
        simp only [hpos, if_false]
        cases pos <;> simp
    · exact ⟨false, by cases pos <;> simp [ht]⟩

/-! ## C2: drop-percentage arithmetic -/

/-- C2: for all non-negative integer reference and current prices, the
computed drop percentage equals `max 0 ((ref - cur) * 100 / ref)` with
exact integer division, and a reference price of zero yields zero (no
division by zero, no spurious trigger). -/
theorem C2_drop_percent_formula (ref cur : Nat) :
    calculateDropPercent (ref : Int) (cur : Int) =
      max 0 (((ref : Int) - (cur : Int)) * 100 / (ref : Int)) ∧
    calculateDropPercent (0 : Int) (cur : Int) = 0 := by
  constructor
  · unfold calculateDropPercent
    by_cases h0 : (ref : Int) = 0
    · simp [h0]
    · have hrefpos : (0 : Int) < (ref : Int) := by
        have := Int.natCast_nonneg ref
        omega
      simp only [h0, if_false]
      by_cases hd : (ref : Int) - (cur : Int) ≤ 0
      · simp only [hd, if_true]
        have h1 : ((ref : Int) - (cur : Int)) * 100 ≤ 0 := by omega
        have h2 : ((ref : Int) - (cur : Int)) * 100 / (ref : Int) ≤ 0 := by
          have h3 := Int.ediv_le_ediv hrefpos h1
          simpa using h3
        exact (max_eq_left h2).symm
      · simp only [hd, if_false]
        have h1 : (0 : Int) ≤ ((ref : Int) - (cur : Int)) * 100 := by omega
        have h2 : (0 : Int) ≤ ((ref : Int) - (cur : Int)) * 100 / (ref : Int) :=
          Int.ediv_nonneg h1 (le_of_lt hrefpos)
        exact (max_eq_right h2).symm
  · simp [calculateDropPercent]

/-! ## C8: registration with a bad balance -/

/-- C8: if the balance query fails or reports a non-positive balance,
`AddPosition` inserts nothing and leaves the position set unchanged
(in particular the count of positions is unchanged). -/
theorem C8_addPosition_bad_balance_unchanged (m : List (Key × Position))
    (walletIndex : Int) (tokenAddress buyAmountWei : Nat) (env : AddEnv)
    (h : env.balance = none ∨ ∃ b, env.balance = some b ∧ b ≤ 0) :
    addPosition m walletIndex tokenAddress buyAmountWei env = m ∧
    (addPosition m walletIndex tokenAddress buyAmountWei env).length =
      m.length := by
  have hm : addPosition m walletIndex tokenAddress buyAmountWei env = m := by
    unfold addPosition
    rcases h with h | ⟨b, hb, hb0⟩
    · simp [h]
    · have hz : b = 0 := Nat.le_zero.mp hb0
      subst hz
      simp [hb]
  exact ⟨hm, by rw [hm]⟩

/-- Witness for C8 at a concrete input: a zero reported balance leaves
the empty map empty. -/
theorem C8_addPosition_bad_balance_unchanged_witness :
    addPosition [] 0 0 5 ⟨some 0, none⟩ = [] ∧
    (addPosition [] 0 0 5 ⟨some 0, none⟩).length =
      ([] : List (Key × Position)).length :=
  C8_addPosition_bad_balance_unchanged [] 0 0 5 ⟨some 0, none⟩
    (Or.inr ⟨0, rfl, Nat.le_refl 0⟩)

/-! ## C9: position-key identity -/

theorem hexDigit_inj {m n : Nat} (hm : m < 16) (hn : n < 16)
    (h : hexDigit m = hexDigit n) : m = n := by
  unfold hexDigit at h
  split_ifs at h <;> omega

theorem hexDigitsAux_length (k : Nat) : ∀ a, (hexDigitsAux k a).length = k := by
  induction k with
  | zero => intro a; rfl
  | succ k ih => intro a; simp [hexDigitsAux, ih]

theorem hexDigitsAux_inj : ∀ (k a b : Nat), a < 16 ^ k → b < 16 ^ k →
    hexDigitsAux k a = hexDigitsAux k b → a = b := by
  intro k
  induction k with
  | zero =>
    intro a b ha hb _
    simp only [pow_zero] at ha hb
    omega
  | succ k ih =>
    intro a b ha hb h
    simp only [hexDigitsAux] at h
    obtain ⟨h1, h2⟩ := List.append_inj' h rfl
    have hd : a % 16 = b % 16 := by
      injection h2 with hx _
      exact hexDigit_inj (Nat.mod_lt _ (by omega)) (Nat.mod_lt _ (by omega)) hx
    have hq : a / 16 = b / 16 := by
      apply ih
      · exact (Nat.div_lt_iff_lt_mul (by omega)).mpr (by rw [← pow_succ]; exact ha)
      · exact (Nat.div_lt_iff_lt_mul (by omega)).mpr (by rw [← pow_succ]; exact hb)
      · exact h1
    have hda := Nat.div_add_mod a 16
    have hdb := Nat.div_add_mod b 16
    omega

theorem goRuneOfInt_small {i : Int} (h0 : 0 ≤ i) (h1 : i < 55296) :
    goRuneOfInt i = i.toNat := by
  have hw : int32wrap i = i := by unfold int32wrap; omega
  unfold goRuneOfInt
  rw [hw, if_pos ⟨h0, h1⟩]

theorem insertKV_lookup : ∀ (m : List (Key × Position)) (k : Key)
    (v : Position), lookupKV (insertKV m k v) k = some v := by
  intro m k v
  induction m with
  | nil => simp [insertKV, lookupKV]
  | cons kv rest ih =>
    obtain ⟨k', v'⟩ := kv
    by_cases h : k' = k
    · simp [insertKV, h, lookupKV]
    · simp [insertKV, h, lookupKV, ih]

/-- Counterexample to C9: the wallet indices 55296 and 55297 differ,
yet (Go's `string(rune(i))` maps every surrogate code point to the
replacement character U+FFFD) they produce the same position key for
the same token address, so the key is not unique per composite pair. -/
theorem C9_key_not_unique_counterexample :
    positionKey 55296 0 = positionKey 55297 0 ∧ (55296 : Int) ≠ 55297 := by
  constructor
  · rfl
  · decide

/-- C9 (amended): the position key is injective on composite pairs
whose wallet index lies in `[0, 0xD800)` (every realisable index — the
wallet slice index — is far below this bound), and registering with an
already-present key overwrites the stored position. -/
theorem C9_key_unique_on_valid_range :
    (∀ (i1 i2 : Int) (a1 a2 : Nat), 0 ≤ i1 → i1 < 55296 → 0 ≤ i2 →
      i2 < 55296 → a1 < 2 ^ 160 → a2 < 2 ^ 160 →
      positionKey i1 a1 = positionKey i2 a2 → i1 = i2 ∧ a1 = a2) ∧
    (∀ (m : List (Key × Position)) (k : Key) (v : Position),
      lookupKV (insertKV m k v) k = some v) := by
  constructor
  · intro i1 i2 a1 a2 hi1 hi1' hi2 hi2' ha1 ha2 h
    have h16 : (16 : Nat) ^ 40 = 2 ^ 160 := by norm_num
    unfold positionKey addressHex at h
    rw [List.append_assoc, List.append_assoc] at h
    simp only [List.cons_append, List.nil_append, List.cons.injEq] at h
    obtain ⟨-, -, h⟩ := h
    have hlen : (hexDigitsAux 40 a1).length = (hexDigitsAux 40 a2).length := by
      rw [hexDigitsAux_length, hexDigitsAux_length]
    obtain ⟨hd, ht⟩ := List.append_inj h hlen
    simp only [List.cons.injEq, and_true, true_and] at ht
    refine ⟨?_, hexDigitsAux_inj 40 a1 a2 (h16 ▸ ha1) (h16 ▸ ha2) hd⟩
    rw [goRuneOfInt_small hi1 hi1', goRuneOfInt_small hi2 hi2'] at ht
    omega
  · exact insertKV_lookup

/-- Witness for C9 (amended) at concrete inputs. -/
theorem C9_key_unique_on_valid_range_witness :
    ((3 : Int) = 3 ∧ (5 : Nat) = 5) ∧
    lookupKV (insertKV [] (positionKey 0 0) cPos) (positionKey 0 0) =
      some cPos :=
  ⟨C9_key_unique_on_valid_range.1 3 3 5 5 (by decide) (by decide)
      (by decide) (by decide) (by norm_num) (by norm_num) rfl,
    C9_key_unique_on_valid_range.2 [] (positionKey 0 0) cPos⟩

/-! ## C7: bounded reconnect -/

theorem reconnectFrom_ok_bounds (env : Nat → AttemptEnv) :
    ∀ (n attempt : Nat), maxReconnectAttempts + 1 - attempt ≤ n →
    ∀ a, reconnectFrom env attempt = Except.ok a →
    attempt ≤ a ∧ a ≤ maxReconnectAttempts := by
  intro n
  induction n with
  | zero =>
    intro attempt hn a hr
    rw [reconnectFrom] at hr
    rw [dif_neg (by simp [maxReconnectAttempts] at hn ⊢; omega)] at hr
    cases hr
  | succ n ih =>
    intro attempt hn a hr
    rw [reconnectFrom] at hr
    by_cases hle : attempt ≤ maxReconnectAttempts
    · rw [dif_pos hle] at hr
      by_cases hok : attemptOk (env attempt)
      · rw [if_pos hok] at hr
        cases hr
        exact ⟨Nat.le_refl _, hle⟩
      · rw [if_neg hok] at hr
        have := ih (attempt + 1) (by omega) a hr
        omega
    · rw [dif_neg hle] at hr
      cases hr

theorem reconnectFrom_all_fail (env : Nat → AttemptEnv) :
    ∀ (n attempt : Nat), maxReconnectAttempts + 1 - attempt ≤ n →
    (∀ a, attempt ≤ a → a ≤ maxReconnectAttempts → attemptOk (env a) = false) →
    reconnectFrom env attempt =
      Except.error "failed to reconnect after 10 attempts" := by
  intro n
  induction n with
  | zero =>
    intro attempt hn _
    rw [reconnectFrom]
    rw [dif_neg (by simp [maxReconnectAttempts] at hn ⊢; omega)]
  | succ n ih =>
    intro attempt hn hfail
    rw [reconnectFrom]
    by_cases hle : attempt ≤ maxReconnectAttempts
    · rw [dif_pos hle]
      rw [if_neg (by simp [hfail attempt (Nat.le_refl _) hle])]
      exact ih (attempt + 1) (by omega) (fun a h1 h2 => hfail a (by omega) h2)
    · rw [dif_neg hle]

theorem reconnectFrom_congr (env env' : Nat → AttemptEnv)
    (hagree : ∀ a, a ≤ maxReconnectAttempts → env a = env' a) :
    ∀ (n attempt : Nat), maxReconnectAttempts + 1 - attempt ≤ n →
    reconnectFrom env attempt = reconnectFrom env' attempt := by
  intro n
  induction n with
  | zero =>
    intro attempt hn
    have hgt : ¬ attempt ≤ maxReconnectAttempts := by
      simp [maxReconnectAttempts] at hn ⊢
      omega
    conv_lhs => rw [reconnectFrom]
    conv_rhs => rw [reconnectFrom]
    rw [dif_neg hgt, dif_neg hgt]
  | succ n ih =>
    intro attempt hn
    conv_lhs => rw [reconnectFrom]
    conv_rhs => rw [reconnectFrom]
    by_cases hle : attempt ≤ maxReconnectAttempts
    · rw [dif_pos hle, dif_pos hle, hagree attempt hle]
      by_cases hok : attemptOk (env' attempt)
      · rw [if_pos hok, if_pos hok]
      · rw [if_neg hok, if_neg hok]
        exact ih (attempt + 1) (by omega)
    · rw [dif_neg hle, dif_neg hle]

/-- C7: the reconnect procedure makes at most `maxReconnectAttempts`
(= 10) attempts — a successful return reports an attempt number in
`[1, 10]`, its behaviour depends only on the outcomes of attempts
1 through 10 (so no 11th attempt is ever consulted), if all ten
attempts fail it returns the fatal error, and `Start`'s main loop
propagates that error to its caller instead of retrying. -/
theorem C7_reconnect_bounded_and_fatal :
    (∀ (env : Nat → AttemptEnv) (a : Nat),
      reconnect env = Except.ok a → 1 ≤ a ∧ a ≤ maxReconnectAttempts) ∧
    (∀ env : Nat → AttemptEnv,
      (∀ a, 1 ≤ a → a ≤ maxReconnectAttempts → attemptOk (env a) = false) →
      reconnect env =
        Except.error "failed to reconnect after 10 attempts") ∧
    (∀ env env' : Nat → AttemptEnv,
      (∀ a, a ≤ maxReconnectAttempts → env a = env' a) →
      reconnect env = reconnect env') ∧
    (∀ (r : Round) (rs : List Round) (e : String),
      r.ctxDoneTop = false → r.subscribeErr.isSome = true →
      r.ctxDoneAfter = false → reconnect r.reconnectEnv = Except.error e →
      startLoop (r :: rs) = some (some e)) := by
  refine ⟨?_, ?_, ?_, ?_⟩
  · intro env a hr
    exact reconnectFrom_ok_bounds env (maxReconnectAttempts + 1) 1
      (by omega) a hr
  · intro env hfail
    exact reconnectFrom_all_fail env (maxReconnectAttempts + 1) 1
      (by omega) hfail
  · intro env env' hagree
    exact reconnectFrom_congr env env' hagree (maxReconnectAttempts + 1) 1
      (by omega)
  · intro r rs e h1 h2 h3 h4
    obtain ⟨s, hs⟩ := Option.isSome_iff_exists.mp h2
    simp [startLoop, h1, h3, hs, h4]

/-- Witness for C7 at a concrete input: with every dial failing, the
reconnect procedure reports the fatal error and `Start` returns it. -/
theorem C7_reconnect_bounded_and_fatal_witness :
    reconnect (fun _ => ⟨false, false⟩) =
      Except.error "failed to reconnect after 10 attempts" ∧
    startLoop [⟨false, some "subscription error", false,
        fun _ => ⟨false, false⟩⟩] =
      some (some "failed to reconnect after 10 attempts") := by
  have h1 := C7_reconnect_bounded_and_fatal.2.1 (fun _ => ⟨false, false⟩)
    (fun a _ _ => rfl)
  have h2 := C7_reconnect_bounded_and_fatal.2.2.2
    ⟨false, some "subscription error", false, fun _ => ⟨false, false⟩⟩
    [] "failed to reconnect after 10 attempts" rfl rfl rfl h1
  exact ⟨h1, h2⟩

/-! ## C3: take-profit at-most-once -/

theorem countTPSell_append (l1 l2 : List Call) :
    countTPSell (l1 ++ l2) = countTPSell l1 + countTPSell l2 := by
  simp [countTPSell, List.countP_append]

theorem countOkApprove_append (l1 l2 : List Call) :
    countOkApprove (l1 ++ l2) = countOkApprove l1 + countOkApprove l2 := by
  simp [countOkApprove, List.countP_append]

theorem tpStep_fst (pos : Position) (env : PosEnv) :
    ∃ ap tp : Bool, (tpStep pos env).1 =
      { pos with takeProfitDone := pos.takeProfitDone || tp,
                 approved := pos.approved || ap } := by
  unfold tpStep
  by_cases h : pos.takeProfitDone
  · exact ⟨false, false, by cases pos <;> simp_all⟩
  · obtain ⟨ap, hap⟩ := checkTakeProfit_fst pos env
    exact ⟨ap, tpHit env, by simp [h, hap]⟩

theorem checkTakeProfit_countTPSell (pos : Position) (env : PosEnv) :
    countTPSell (checkTakeProfit pos env).2 ≤ 1 ∧
    (1 ≤ countTPSell (checkTakeProfit pos env).2 → tpHit env = true) := by
  obtain ⟨bal, u, tps, pr, sls⟩ := env
  unfold checkTakeProfit tpHit
  cases u with
  | none => simp [countTPSell]
  | some u =>
    by_cases ht : tpThresholdMet u
    · simp only [ht, if_true]
      split <;> split <;>
        constructor <;>
        first
        | exact executeSell_countTPSell_le _ _ _ _
        | simp [countTPSell, ht]
    · simp [ht, countTPSell]

theorem tpStep_countTPSell (pos : Position) (env : PosEnv) :
    countTPSell (tpStep pos env).2 ≤ (if pos.takeProfitDone then 0 else 1) ∧
    (1 ≤ countTPSell (tpStep pos env).2 →
      (tpStep pos env).1.takeProfitDone = true) := by
  unfold tpStep
  by_cases h : pos.takeProfitDone
  · simp [h, countTPSell]
  · simp only [h, if_false, Bool.false_eq_true]
    obtain ⟨hle, hhit⟩ := checkTakeProfit_countTPSell pos env
    obtain ⟨ap, hap⟩ := checkTakeProfit_fst pos env
    refine ⟨by simpa using hle, fun hc => ?_⟩
    rw [hap]
    simp [hhit hc]

theorem checkPosition_tp (slp : Int) (pos : Position) (env : PosEnv) :
    countTPSell (checkPosition slp pos env).2 ≤
      (if pos.takeProfitDone then 0 else 1) ∧
    (∀ p', (checkPosition slp pos env).1 = some p' →
      (pos.takeProfitDone = true → p'.takeProfitDone = true) ∧
      (1 ≤ countTPSell (checkPosition slp pos env).2 →
        p'.takeProfitDone = true)) := by
  unfold checkPosition checkPositionLive
  by_cases hsold : pos.sold
  · rw [if_pos hsold]
    refine ⟨by simp [countTPSell], ?_⟩
    intro p' hp'
    injection hp' with hp'
    subst hp'
    simp [countTPSell]
  · rw [if_neg hsold]
    cases hbal : env.balance with
    | none =>
      refine ⟨by simp [countTPSell], ?_⟩
      intro p' hp'
      injection hp' with hp'
      subst hp'
      simp [countTPSell]
    | some b =>
      by_cases hb0 : b = 0
      · subst hb0
        simp only [if_pos rfl]
        refine ⟨by simp [countTPSell], ?_⟩
        intro p' hp'
        injection hp' with hp'
        subst hp'
        simp [countTPSell]
      · simp only [hb0, if_false]
        obtain ⟨htple, htpflag⟩ :=
          tpStep_countTPSell { pos with tokenAmount := b } env
        cases hpr : env.price with
        | none =>
          refine ⟨by simpa using htple, ?_⟩
          intro p' hp'
          injection hp' with hp'
          subst hp'
          constructor
          · intro h
            have h1 : (1 : Nat) ≤ countTPSell
                (tpStep { pos with tokenAmount := b } env).2 →
                (tpStep { pos with tokenAmount := b } env).1.takeProfitDone =
                  true := htpflag
            obtain ⟨ap, tp, htp⟩ := tpStep_fst { pos with tokenAmount := b } env
            rw [htp]
            simp [h]
          · exact htpflag
        | some p =>
          by_cases hsl : slp ≤ calculateDropPercent
              ((tpStep { pos with tokenAmount := b } env).1.buyPriceWei : Int)
              (p : Int)
          · simp only [hsl, if_true]
            refine ⟨?_, ?_⟩
            · rw [countTPSell_append, executeSell_countTPSell_stopLoss]
              simpa using htple
            · intro p' hp'
              cases hp'
          · simp only [hsl, if_false]
            refine ⟨by simpa using htple, ?_⟩
            intro p' hp'
            injection hp' with hp'
            subst hp'
            constructor
            · intro h
              obtain ⟨ap, tp, htp⟩ :=
                tpStep_fst { pos with tokenAmount := b } env
              rw [htp]
              simp [h]
            · exact htpflag

theorem runTicks_tp (slp : Int) : ∀ (envs : List PosEnv) (pos : Position),
    (pos.takeProfitDone = true → countTPSell (runTicks slp pos envs).2 = 0) ∧
    countTPSell (runTicks slp pos envs).2 ≤ 1 := by
  intro envs
  induction envs with
  | nil => intro pos; simp [runTicks, countTPSell]
  | cons env envs ih =>
    intro pos
    obtain ⟨hle, hso⟩ := checkPosition_tp slp pos env
    unfold runTicks
    rcases hcp : checkPosition slp pos env with ⟨o, calls⟩
    rw [hcp] at hle hso
    cases o with
    | none =>
      simp only []
      constructor
      · intro h
        rw [h] at hle
        simpa using hle
      · by_cases hf : pos.takeProfitDone <;> simp [hf] at hle <;> omega
    | some p' =>
      simp only []
      obtain ⟨hmono, hfire⟩ := hso p' rfl
      obtain ⟨ih1, ih2⟩ := ih p'
      rw [countTPSell_append]
      constructor
      · intro h
        have hc1 : countTPSell calls = 0 := by
          rw [h] at hle
          simpa using hle
        have hc2 : countTPSell (runTicks slp p' envs).2 = 0 :=
          ih1 (hmono h)
        omega
      · by_cases hf : pos.takeProfitDone
        · have hc1 : countTPSell calls = 0 := by
            rw [hf] at hle
            simpa using hle
          have hc2 : countTPSell (runTicks slp p' envs).2 = 0 :=
            ih1 (hmono hf)
          omega
        · have hc1 : countTPSell calls ≤ 1 := by
            simp [hf] at hle
            omega
          by_cases hc : 1 ≤ countTPSell calls
          · have hc2 : countTPSell (runTicks slp p' envs).2 = 0 :=
              ih1 (hfire hc)
            omega
          · omega

/-- C3: the take-profit action fires at most once per position — the
flag is never cleared once set (monotone across a tick), a position
whose flag is set never consults the USDT valuation or the take-profit
sell oracle again (the tick's outcome is independent of them), the
flag is set whenever the evaluation reaches the take-profit check and
the valuation threshold is met (with no condition on the computed sell
amount or the sell's success), and over any lifetime trace at most one
take-profit sell is ever emitted. -/
theorem C3_take_profit_at_most_once :
    (∀ (slp : Int) (pos : Position) (env : PosEnv) (p' : Position),
      (checkPosition slp pos env).1 = some p' →
      pos.takeProfitDone = true → p'.takeProfitDone = true) ∧
    (∀ (slp : Int) (pos : Position) (env : PosEnv) (u : Option Nat)
      (ts : SellEnv), pos.takeProfitDone = true →
      checkPosition slp pos env =
        checkPosition slp pos { env with usdt := u, tpSell := ts }) ∧
    (∀ (slp : Int) (pos : Position) (env : PosEnv) (b u : Nat)
      (p' : Position), pos.sold = false → pos.takeProfitDone = false →
      env.balance = some b → b ≠ 0 → env.usdt = some u →
      tpThresholdMet u = true →
      (checkPosition slp pos env).1 = some p' → p'.takeProfitDone = true) ∧
    (∀ (slp : Int) (pos : Position) (envs : List PosEnv),
      countTPSell (runTicks slp pos envs).2 ≤ 1) := by
  refine ⟨?_, ?_, ?_, ?_⟩
  · intro slp pos env p' h hf
    exact (((checkPosition_tp slp pos env).2 p' h).1) hf
  · intro slp pos env u ts h
    obtain ⟨bal, u0, ts0, pr, sl⟩ := env
    unfold checkPosition
    by_cases hsold : pos.sold
    · rw [if_pos hsold, if_pos hsold]
    · rw [if_neg hsold, if_neg hsold]
      unfold checkPositionLive
      cases bal with
      | none => rfl
      | some b => simp [tpStep, h]
  · intro slp pos env b u p' hsold hflag hb hb0 hu ht hres
    unfold checkPosition checkPositionLive at hres
    rw [if_neg (by simp [hsold])] at hres
    simp only [hb] at hres
    rw [if_neg hb0] at hres
    have htp : (tpStep { pos with tokenAmount := b } env).1.takeProfitDone =
        true := by
      unfold tpStep
      rw [if_neg (by simp [hflag])]
      obtain ⟨ap, hap⟩ := checkTakeProfit_fst { pos with tokenAmount := b } env
      rw [hap]
      simp [hflag, tpHit, hu, ht]
    cases hpr : env.price with
    | none =>
      simp only [hpr] at hres
      injection hres with hres
      rw [← hres]
      exact htp
    | some p =>
      simp only [hpr] at hres
      by_cases hsl : slp ≤ calculateDropPercent
          ((tpStep { pos with tokenAmount := b } env).1.buyPriceWei : Int)
          (p : Int)
      · rw [if_pos hsl] at hres
        exact absurd hres (by simp)
      · rw [if_neg hsl] at hres
        injection hres with hres
        rw [← hres]
        exact htp
  · intro slp pos envs
    exact (runTicks_tp slp envs pos).2

/-- Witness for C3 at a concrete input: under the qualifying oracle
`tEnv`, the position `tPos` ends the tick with the take-profit flag
set. -/
theorem C3_take_profit_at_most_once_witness : tResult.takeProfitDone = true :=
  C3_take_profit_at_most_once.2.2.1 50 tPos tEnv 80 (3 * 10 ^ 14) tResult
    rfl rfl rfl (by decide) rfl (by decide) (by decide)

/-! ## C4: approval at-most-once -/

theorem executeSell_okApprove_iff : ∀ (pos : Position) (amt : Nat)
    (env : SellEnv) (src : SellSource),
    countOkApprove (executeSell pos amt env src).2 ≤
      (if pos.approved then 0 else 1) ∧
    ((executeSell pos amt env src).1.approved = true ↔
      (pos.approved = true ∨
        1 ≤ countOkApprove (executeSell pos amt env src).2)) := by
  intro pos amt ⟨aok, sok⟩ src
  by_cases hap : pos.approved <;> cases aok <;>
    simp [executeSell, hap, countOkApprove, isOkApprove,
      List.countP_cons, List.countP_nil]

theorem okApprove_seq {pos0 pos1 pos2 : Position} {c1 c2 : List Call}
    (h1 : countOkApprove c1 ≤ (if pos0.approved then 0 else 1))
    (h1f : pos1.approved = true ↔
      (pos0.approved = true ∨ 1 ≤ countOkApprove c1))
    (h2 : countOkApprove c2 ≤ (if pos1.approved then 0 else 1))
    (h2f : pos2.approved = true ↔
      (pos1.approved = true ∨ 1 ≤ countOkApprove c2)) :
    countOkApprove (c1 ++ c2) ≤ (if pos0.approved then 0 else 1) ∧
    (pos2.approved = true ↔
      (pos0.approved = true ∨ 1 ≤ countOkApprove (c1 ++ c2))) := by
  rw [countOkApprove_append]
  cases h0 : pos0.approved <;> cases hp1 : pos1.approved <;>
    cases hp2 : pos2.approved <;> simp_all <;> omega

theorem checkTakeProfit_okApprove (pos : Position) (env : PosEnv) :
    countOkApprove (checkTakeProfit pos env).2 ≤
      (if pos.approved then 0 else 1) ∧
    ((checkTakeProfit pos env).1.approved = true ↔
      (pos.approved = true ∨
        1 ≤ countOkApprove (checkTakeProfit pos env).2)) := by
  obtain ⟨bal, u, tps, pr, sls⟩ := env
  unfold checkTakeProfit
  cases u with
  | none => simp [countOkApprove]
  | some u =>
    by_cases ht : tpThresholdMet u
    · simp only [ht, if_true]
      split <;> split <;>
        first
        | exact ⟨(executeSell_okApprove_iff _ _ _ _).1,
            by simpa using (executeSell_okApprove_iff _ _ _ _).2⟩
        | simp [countOkApprove]
    · simp [ht, countOkApprove]

theorem tpStep_okApprove (pos : Position) (env : PosEnv) :
    countOkApprove (tpStep pos env).2 ≤ (if pos.approved then 0 else 1) ∧
    ((tpStep pos env).1.approved = true ↔
      (pos.approved = true ∨ 1 ≤ countOkApprove (tpStep pos env).2)) := by
  unfold tpStep
  by_cases h : pos.takeProfitDone
  · rw [if_pos h]
    simp [countOkApprove]
  · rw [if_neg h]
    exact checkTakeProfit_okApprove pos env

theorem checkPosition_okApprove (slp : Int) (pos : Position) (env : PosEnv) :
    countOkApprove (checkPosition slp pos env).2 ≤
      (if pos.approved then 0 else 1) ∧
    (∀ p', (checkPosition slp pos env).1 = some p' →
      (p'.approved = true ↔
        (pos.approved = true ∨
          1 ≤ countOkApprove (checkPosition slp pos env).2))) := by
  unfold checkPosition checkPositionLive
  by_cases hsold : pos.sold
  · rw [if_pos hsold]
    refine ⟨by simp [countOkApprove], ?_⟩
    intro p' hp'
    injection hp' with hp'
    subst hp'
    simp [countOkApprove]
  · rw [if_neg hsold]
    cases hbal : env.balance with
    | none =>
      refine ⟨by simp [countOkApprove], ?_⟩
      intro p' hp'
      injection hp' with hp'
      subst hp'
      simp [countOkApprove]
    | some b =>
      by_cases hb0 : b = 0
      · subst hb0
        simp only [if_pos rfl]
        refine ⟨by simp [countOkApprove], ?_⟩
        intro p' hp'
        injection hp' with hp'
        subst hp'
        simp [countOkApprove]
      · simp only [hb0, if_false]
        obtain ⟨htle, htiff⟩ := tpStep_okApprove { pos with tokenAmount := b } env
        cases hpr : env.price with
        | none =>
          refine ⟨by simpa using htle, ?_⟩
          intro p' hp'
          injection hp' with hp'
          subst hp'
          simpa using htiff
        | some p =>
          by_cases hsl : slp ≤ calculateDropPercent
              ((tpStep { pos with tokenAmount := b } env).1.buyPriceWei : Int)
              (p : Int)
          · simp only [hsl, if_true]
            obtain ⟨hsle, hsiff⟩ := executeSell_okApprove_iff
              (tpStep { pos with tokenAmount := b } env).1
              (tpStep { pos with tokenAmount := b } env).1.tokenAmount
              env.slSell SellSource.stopLoss
            have hseq := okApprove_seq (by simpa using htle)
              (by simpa using htiff) hsle hsiff
            refine ⟨hseq.1, ?_⟩
            intro p' hp'
            exact absurd hp' (by simp)
          · simp only [hsl, if_false]
            refine ⟨by simpa using htle, ?_⟩
            intro p' hp'
            injection hp' with hp'
            subst hp'
            simpa using htiff

theorem runTicks_okApprove (slp : Int) :
    ∀ (envs : List PosEnv) (pos : Position),
    countOkApprove (runTicks slp pos envs).2 ≤
      (if pos.approved then 0 else 1) := by
  intro envs
  induction envs with
  | nil => intro pos; simp [runTicks, countOkApprove]
  | cons env envs ih =>
    intro pos
    obtain ⟨hle, hiff⟩ := checkPosition_okApprove slp pos env
    unfold runTicks
    rcases hcp : checkPosition slp pos env with ⟨o, calls⟩
    rw [hcp] at hle hiff
    cases o with
    | none => simpa using hle
    | some p' =>
      simp only []
      rw [countOkApprove_append]
      have hle2 : countOkApprove calls ≤ (if pos.approved then 0 else 1) := hle
      have hif : p'.approved = true ↔
          (pos.approved = true ∨ 1 ≤ countOkApprove calls) := hiff p' rfl
      have ihp := ih p'
      by_cases h0 : pos.approved
      · have hc1 : countOkApprove calls = 0 := by
          rw [if_pos h0] at hle2
          omega
        have hp2 : p'.approved = true := hif.mpr (Or.inl h0)
        rw [if_pos hp2] at ihp
        rw [if_pos h0]
        omega
      · rw [if_neg h0] at hle2
        rw [if_neg h0]
        by_cases hc : 1 ≤ countOkApprove calls
        · have hp2 : p'.approved = true := hif.mpr (Or.inr hc)
          rw [if_pos hp2] at ihp
          omega
        · have hp2 : p'.approved = false := by
            cases hpa : p'.approved
            · rfl
            · rcases hif.mp hpa with h | h
              · exact absurd h h0
              · exact absurd h hc
          rw [if_neg (by simp [hp2])] at ihp
          omega

/-- C4: an approval transaction is attempted only while the approved
flag is false, the flag after `executeSell` is exactly "was approved
or the approval call succeeded" (so it is set only by a successful
approval and never reset), a tick preserves the flag once set, and
over any lifetime trace at most one successful approval transaction is
ever issued. -/
theorem C4_approval_at_most_once :
    (∀ (pos : Position) (amt : Nat) (env : SellEnv) (src : SellSource),
      pos.approved = true →
      ∀ c ∈ (executeSell pos amt env src).2, isApprove c = false) ∧
    (∀ (pos : Position) (amt : Nat) (env : SellEnv) (src : SellSource),
      (executeSell pos amt env src).1.approved =
        (pos.approved || env.approveOk)) ∧
    (∀ (slp : Int) (pos : Position) (env : PosEnv) (p' : Position),
      (checkPosition slp pos env).1 = some p' → pos.approved = true →
      p'.approved = true) ∧
    (∀ (slp : Int) (pos : Position) (envs : List PosEnv),
      countOkApprove (runTicks slp pos envs).2 ≤ 1) := by
  refine ⟨executeSell_no_approve_of_approved, ?_, ?_, ?_⟩
  · intro pos amt env src
    rw [executeSell_fst]
  · intro slp pos env p' hp' hap
    exact ((checkPosition_okApprove slp pos env).2 p' hp').mpr (Or.inl hap)
  · intro slp pos envs
    have h := runTicks_okApprove slp envs pos
    by_cases hap : pos.approved
    · rw [if_pos hap] at h
      omega
    · rw [if_neg hap] at h
      omega

/-- Witness for C4 at concrete inputs: an already-approved position's
sell emits no approval call, and a failed-balance tick preserves the
approved flag. -/
theorem C4_approval_at_most_once_witness :
    isApprove (Call.sell SellSource.stopLoss 9 5 true) = false ∧
    sPos.approved = true :=
  ⟨C4_approval_at_most_once.1 sPos 5 ⟨true, true⟩ SellSource.stopLoss rfl
      (Call.sell SellSource.stopLoss 9 5 true) (by decide),
    C4_approval_at_most_once.2.2.1 50 sPos
      ⟨none, none, ⟨false, false⟩, none, ⟨false, false⟩⟩ sPos (by decide) rfl⟩

/-! ## C10: the Sold flag is never set -/

theorem checkPosition_sold (slp : Int) (pos : Position) (env : PosEnv) :
    ∀ p', (checkPosition slp pos env).1 = some p' → p'.sold = pos.sold := by
  unfold checkPosition checkPositionLive
  by_cases hsold : pos.sold
  · rw [if_pos hsold]
    intro p' h
    injection h with h
    subst h
    rfl
  · rw [if_neg hsold]
    cases hbal : env.balance with
    | none =>
      intro p' h
      injection h with h
      subst h
      rfl
    | some b =>
      by_cases hb0 : b = 0
      · subst hb0
        simp only [if_pos rfl]
        intro p' h
        injection h with h
        subst h
        rfl
      · simp only [hb0, if_false]
        obtain ⟨ap, tp, htp⟩ := tpStep_fst { pos with tokenAmount := b } env
        cases hpr : env.price with
        | none =>
          intro p' h
          injection h with h
          subst h
          rw [htp]
        | some p =>
          by_cases hsl : slp ≤ calculateDropPercent
              ((tpStep { pos with tokenAmount := b } env).1.buyPriceWei : Int)
              (p : Int)
          · simp only [hsl, if_true]
            intro p' h
            cases h
          · simp only [hsl, if_false]
            intro p' h
            injection h with h
            subst h
            rw [htp]

theorem insertKV_allNotSold (m : List (Key × Position)) (k : Key)
    (v : Position) (hv : v.sold = false) (hm : allNotSold m) :
    allNotSold (insertKV m k v) := by
  induction m with
  | nil =>
    intro kp hkp
    simp [insertKV] at hkp
    rw [hkp]
    exact hv
  | cons kv' rest ih =>
    obtain ⟨k', v'⟩ := kv'
    have hmr : allNotSold rest := fun kp hk => hm kp (List.mem_cons_of_mem _ hk)
    intro kp hkp
    by_cases h : k' = k
    · simp [insertKV, h] at hkp
      rcases hkp with hkp | hkp
      · rw [hkp]
        exact hv
      · exact hm kp (List.mem_cons_of_mem _ hkp)
    · simp only [insertKV, h, if_false] at hkp
      rcases List.mem_cons.mp hkp with hkp | hkp
      · rw [hkp]
        exact hm (k', v') (List.mem_cons_self _ _)
      · exact ih hmr kp hkp

/-- C10: no operation of the monitor ever sets a position's `Sold`
flag — a tick leaves the flag of every surviving position unchanged,
registration only creates `Sold = false` positions, the all-unsold
invariant is preserved by registration and by a full tick over the
map, and for every unsold position the skip-if-sold branch falls
through to the live evaluation (so no live position is ever
skipped by it). -/
theorem C10_sold_flag_never_set :
    (∀ (slp : Int) (pos : Position) (env : PosEnv) (p' : Position),
      (checkPosition slp pos env).1 = some p' → p'.sold = pos.sold) ∧
    (∀ (m : List (Key × Position)) (wi : Int) (ta ba : Nat) (env : AddEnv),
      allNotSold m → allNotSold (addPosition m wi ta ba env)) ∧
    (∀ (slp : Int) (m : List (Key × Position)) (env : Key → PosEnv),
      allNotSold m → allNotSold (checkPositions slp m env).1) ∧
    (∀ (slp : Int) (pos : Position) (env : PosEnv), pos.sold = false →
      checkPosition slp pos env = checkPositionLive slp pos env) := by
  refine ⟨?_, ?_, ?_, ?_⟩
  · intro slp pos env p'
    exact checkPosition_sold slp pos env p'
  · intro m wi ta ba env hm
    obtain ⟨bal, pr⟩ := env
    unfold addPosition
    cases bal with
    | none => exact hm
    | some b =>
      by_cases hb0 : b = 0
      · simp only [hb0, if_pos rfl]
        exact hm
      · simp only [hb0, if_false]
        exact insertKV_allNotSold m _ _ rfl hm
  · intro slp m env hm
    induction m with
    | nil =>
      intro kp hkp
      simp [checkPositions] at hkp
    | cons kv rest ih =>
      obtain ⟨k, pos⟩ := kv
      have hmr : allNotSold rest :=
        fun kp hk => hm kp (List.mem_cons_of_mem _ hk)
      have hpos : pos.sold = false := hm (k, pos) (List.mem_cons_self _ _)
      unfold checkPositions
      rcases hcp : checkPosition slp pos (env k) with ⟨o, calls⟩
      cases o with
      | none =>
        simp only []
        exact ih hmr
      | some p' =>
        simp only []
        intro kp hkp
        rcases List.mem_cons.mp hkp with hkp | hkp
        · rw [hkp]
          have : p'.sold = pos.sold :=
            checkPosition_sold slp pos (env k) p' (by rw [hcp])
          rw [this]
          exact hpos
        · exact ih hmr kp hkp
  · intro slp pos env hsold
    unfold checkPosition
    rw [if_neg (by simp [hsold])]

/-- Witness for C10 at concrete inputs: the unsold sample position
falls through to the live evaluation, and registration over the empty
map preserves the all-unsold invariant. -/
theorem C10_sold_flag_never_set_witness :
    checkPosition 50 cPos cEnv = checkPositionLive 50 cPos cEnv ∧
    allNotSold (addPosition [] 0 7 5 ⟨some 3, none⟩) :=
  ⟨C10_sold_flag_never_set.2.2.2 50 cPos cEnv rfl,
    C10_sold_flag_never_set.2.1 [] 0 7 5 ⟨some 3, none⟩
      (by intro kp hkp; cases hkp)⟩

/-! ## C5: never sell more than the tracked balance -/

theorem checkTakeProfit_sell_le (pos : Position) (env : PosEnv) :
    ∀ (src : SellSource) (tok amt : Nat) (ok : Bool),
    Call.sell src tok amt ok ∈ (checkTakeProfit pos env).2 →
    amt ≤ pos.tokenAmount := by
  obtain ⟨bal, u, tps, pr, sls⟩ := env
  unfold checkTakeProfit
  cases u with
  | none =>
    intro src tok amt ok h
    simp at h
  | some u =>
    by_cases ht : tpThresholdMet u
    · simp only [ht, if_true]
      split
      · split
        · intro src tok amt ok h
          obtain ⟨-, -, hamt⟩ := executeSell_sell_mem _ _ _ _ _ _ _ _ h
          omega
        · intro src tok amt ok h
          simp at h
      · split
        · intro src tok amt ok h
          obtain ⟨-, -, hamt⟩ := executeSell_sell_mem _ _ _ _ _ _ _ _ h
          subst hamt
          omega
        · intro src tok amt ok h
          simp at h
    · intro src tok amt ok h
      simp [ht] at h

/-- C5: every sell the monitor requests during a tick — the
take-profit partial sell and the stop-loss full sell alike — carries
an amount no greater than the balance the tick just fetched and
tracked for the position. -/
theorem C5_never_oversell (slp : Int) (pos : Position) (env : PosEnv) :
    ∀ (src : SellSource) (tok amt : Nat) (ok : Bool),
    Call.sell src tok amt ok ∈ (checkPosition slp pos env).2 →
    ∃ b, env.balance = some b ∧ amt ≤ b := by
  unfold checkPosition checkPositionLive
  by_cases hsold : pos.sold
  · rw [if_pos hsold]
    intro src tok amt ok h
    simp at h
  · rw [if_neg hsold]
    cases hbal : env.balance with
    | none =>
      intro src tok amt ok h
      simp at h
    | some b =>
      by_cases hb0 : b = 0
      · subst hb0
        simp only [if_pos rfl]
        intro src tok amt ok h
        simp at h
      · simp only [hb0, if_false]
        have htp : ∀ (src : SellSource) (tok amt : Nat) (ok : Bool),
            Call.sell src tok amt ok ∈
              (tpStep { pos with tokenAmount := b } env).2 → amt ≤ b := by
          intro src tok amt ok h
          unfold tpStep at h
          split at h
          · simp at h
          · have := checkTakeProfit_sell_le { pos with tokenAmount := b } env
              src tok amt ok h
            simpa using this
        cases hpr : env.price with
        | none =>
          intro src tok amt ok h
          exact ⟨b, rfl, htp src tok amt ok h⟩
        | some p =>
          by_cases hsl : slp ≤ calculateDropPercent
              ((tpStep { pos with tokenAmount := b } env).1.buyPriceWei : Int)
              (p : Int)
          · simp only [hsl, if_true]
            intro src tok amt ok h
            rcases List.mem_append.mp h with h | h
            · exact ⟨b, rfl, htp src tok amt ok h⟩
            · obtain ⟨-, -, hamt⟩ := executeSell_sell_mem _ _ _ _ _ _ _ _ h
              obtain ⟨ap, tp2, htpf⟩ :=
                tpStep_fst { pos with tokenAmount := b } env
              refine ⟨b, rfl, ?_⟩
              rw [hamt, htpf]
          · simp only [hsl, if_false]
            intro src tok amt ok h
            exact ⟨b, rfl, htp src tok amt ok h⟩

/-- Witness for C5 at a concrete input: the stop-loss full sell of
`sPos` under `sEnv` sells 10, which is the fetched balance. -/
theorem C5_never_oversell_witness : ∃ b, sEnv.balance = some b ∧ 10 ≤ b :=
  C5_never_oversell 50 sPos sEnv SellSource.stopLoss 9 10 true (by decide)

/-! ## C6 and C1: take-profit amount and removal semantics -/

theorem cap_eq_min (a b : Nat) : (if b < a then b else a) = min a b := by
  rcases Nat.lt_or_ge b a with h | h
  · rw [if_pos h, Nat.min_eq_right (Nat.le_of_lt h)]
  · rw [if_neg (Nat.not_lt.mpr h), Nat.min_eq_left h]

theorem checkTakeProfit_fire (pos : Position) (env : PosEnv) (u : Nat)
    (hu : env.usdt = some u) (ht : tpThresholdMet u = true) :
    checkTakeProfit pos env =
      (if 0 < min (pos.initialTokenAmount * TakeProfitSellPercent / 100)
          pos.tokenAmount then
        (let res := executeSell pos
          (min (pos.initialTokenAmount * TakeProfitSellPercent / 100)
            pos.tokenAmount) env.tpSell SellSource.takeProfit
         ({ res.1 with takeProfitDone := true }, res.2))
      else ({ pos with takeProfitDone := true }, [])) := by
  unfold checkTakeProfit
  simp only [hu, ht, if_true]
  rw [cap_eq_min (pos.initialTokenAmount * TakeProfitSellPercent / 100)
    pos.tokenAmount]

theorem checkPosition_none_iff (slp : Int) (pos : Position) (env : PosEnv)
    (hsold : pos.sold = false) :
    (checkPosition slp pos env).1 = none ↔
      ∃ b, env.balance = some b ∧ b ≠ 0 ∧ ∃ p, env.price = some p ∧
        slp ≤ calculateDropPercent (pos.buyPriceWei : Int) (p : Int) := by
  unfold checkPosition checkPositionLive
  rw [if_neg (by simp [hsold])]
  cases hbal : env.balance with
  | none => simp
  | some b =>
    by_cases hb0 : b = 0
    · subst hb0
      simp only [if_pos rfl]
      simp
    · simp only [hb0, if_false]
      obtain ⟨ap, tp2, htpf⟩ := tpStep_fst { pos with tokenAmount := b } env
      have hbp : (tpStep { pos with tokenAmount := b } env).1.buyPriceWei =
          pos.buyPriceWei := by rw [htpf]
      cases hpr : env.price with
      | none => simp
      | some p =>
        simp only [hbp]
        by_cases hsl : slp ≤ calculateDropPercent (pos.buyPriceWei : Int)
            (p : Int)
        · simp [hsl, hb0]
        · simp [hsl]

/-- Counterexample to C1: under `cEnv` the approval transaction (an
external call made while evaluating the position) fails, no sell is
ever sent, yet the position is removed from the live set on that very
tick — so a failing external call during evaluation does not keep the
position, and removal does not require a successful full sell. -/
theorem C1_removal_despite_failure_counterexample :
    checkPosition 50 cPos cEnv =
      (none, [Call.approve 7 maxApprove false]) := by decide

/-- C1 (amended): a failing balance query, a non-positive balance, or
a failing price query does leave the position in the live set for that
tick; but once those queries succeed and the drop meets the threshold,
the position is removed unconditionally — whether or not the approval
or the sell transaction succeeded.  Removal happens exactly when the
stop-loss branch is reached. -/
theorem C1_removal_iff_stop_loss_branch (slp : Int) (pos : Position)
    (env : PosEnv) (hsold : pos.sold = false) :
    (checkPosition slp pos env).1 = none ↔
      ∃ b, env.balance = some b ∧ b ≠ 0 ∧ ∃ p, env.price = some p ∧
        slp ≤ calculateDropPercent (pos.buyPriceWei : Int) (p : Int) :=
  checkPosition_none_iff slp pos env hsold

/-- Witness for C1 (amended) at a concrete input: `cPos` under `cEnv`
is removed because the drop threshold is met, even though approval
failed. -/
theorem C1_removal_iff_stop_loss_branch_witness :
    (checkPosition 50 cPos cEnv).1 = none :=
  (C1_removal_iff_stop_loss_branch 50 cPos cEnv rfl).mpr
    ⟨50, rfl, by decide, 0, rfl, by decide⟩

/-- C6: when the evaluation reaches the take-profit check and the
valuation threshold is met, every take-profit sell emitted carries
exactly `min (initialAmount * 70 / 100) balance` tokens (70% of the
original acquisition amount with integer division, capped at the
current balance); whenever the approval gate passes and that amount is
positive, such a sell is indeed emitted; and the take-profit path
never removes the position — removal can only come from the stop-loss
branch. -/
theorem C6_take_profit_sells_seventy_percent (slp : Int) (pos : Position)
    (env : PosEnv) (b u : Nat) (hsold : pos.sold = false)
    (hflag : pos.takeProfitDone = false) (hb : env.balance = some b)
    (hb0 : b ≠ 0) (hu : env.usdt = some u) (ht : tpThresholdMet u = true) :
    (∀ (src : SellSource) (tok amt : Nat) (ok : Bool),
      Call.sell src tok amt ok ∈ (checkPosition slp pos env).2 →
      src = SellSource.takeProfit →
      amt = min (pos.initialTokenAmount * TakeProfitSellPercent / 100) b) ∧
    ((pos.approved || env.tpSell.approveOk) = true →
      0 < min (pos.initialTokenAmount * TakeProfitSellPercent / 100) b →
      ∃ ok, Call.sell SellSource.takeProfit pos.tokenAddress
        (min (pos.initialTokenAmount * TakeProfitSellPercent / 100) b) ok ∈
        (checkPosition slp pos env).2) ∧
    ((checkPosition slp pos env).1 = none →
      ∃ p, env.price = some p ∧
        slp ≤ calculateDropPercent (pos.buyPriceWei : Int) (p : Int)) := by
  have hstep : tpStep { pos with tokenAmount := b } env =
      checkTakeProfit { pos with tokenAmount := b } env := by
    unfold tpStep
    rw [if_neg (by simp [hflag])]
  have hfire := checkTakeProfit_fire { pos with tokenAmount := b } env u hu ht
  have hcalls : ∀ (src : SellSource) (tok amt : Nat) (ok : Bool),
      Call.sell src tok amt ok ∈
        (tpStep { pos with tokenAmount := b } env).2 →
      src = SellSource.takeProfit ∧ tok = pos.tokenAddress ∧
        amt = min (pos.initialTokenAmount * TakeProfitSellPercent / 100) b := by
    intro src tok amt ok h
    rw [hstep, hfire] at h
    split at h
    · obtain ⟨hsrc, htok, hamt⟩ := executeSell_sell_mem _ _ _ _ _ _ _ _ h
      exact ⟨hsrc, by simpa using htok, by simpa using hamt⟩
    · simp at h
  have hpres : (pos.approved || env.tpSell.approveOk) = true →
      0 < min (pos.initialTokenAmount * TakeProfitSellPercent / 100) b →
      ∃ ok, Call.sell SellSource.takeProfit pos.tokenAddress
        (min (pos.initialTokenAmount * TakeProfitSellPercent / 100) b) ok ∈
        (tpStep { pos with tokenAmount := b } env).2 := by
    intro hap hpos
    rw [hstep, hfire]
    have hcond : 0 < min
        (({ pos with tokenAmount := b } : Position).initialTokenAmount *
          TakeProfitSellPercent / 100)
        (({ pos with tokenAmount := b } : Position).tokenAmount) := by
      simpa using hpos
    rw [if_pos hcond]
    refine ⟨env.tpSell.sellOk, ?_⟩
    have hp := executeSell_sell_present { pos with tokenAmount := b }
      (min (({ pos with tokenAmount := b } : Position).initialTokenAmount *
          TakeProfitSellPercent / 100)
        (({ pos with tokenAmount := b } : Position).tokenAmount))
      env.tpSell SellSource.takeProfit (by simpa using hap)
    simpa using hp
  refine ⟨?_, ?_, ?_⟩
  · unfold checkPosition checkPositionLive
    rw [if_neg (by simp [hsold])]
    simp only [hb]
    rw [if_neg hb0]
    cases hpr : env.price with
    | none =>
      intro src tok amt ok h hsrc
      exact (hcalls src tok amt ok h).2.2
    | some p =>
      by_cases hsl : slp ≤ calculateDropPercent
          ((tpStep { pos with tokenAmount := b } env).1.buyPriceWei : Int)
          (p : Int)
      · simp only [hsl, if_true]
        intro src tok amt ok h hsrc
        rcases List.mem_append.mp h with h | h
        · exact (hcalls src tok amt ok h).2.2
        · obtain ⟨hsrc', -, -⟩ := executeSell_sell_mem _ _ _ _ _ _ _ _ h
          rw [hsrc] at hsrc'
          exact absurd hsrc' (by simp)
      · simp only [hsl, if_false]
        intro src tok amt ok h hsrc
        exact (hcalls src tok amt ok h).2.2
  · intro hap hpos
    obtain ⟨ok, hmem⟩ := hpres hap hpos
    unfold checkPosition checkPositionLive
    rw [if_neg (by simp [hsold])]
    simp only [hb]
    rw [if_neg hb0]
    cases hpr : env.price with
    | none => exact ⟨ok, hmem⟩
    | some p =>
      by_cases hsl : slp ≤ calculateDropPercent
          ((tpStep { pos with tokenAmount := b } env).1.buyPriceWei : Int)
          (p : Int)
      · simp only [hsl, if_true]
        exact ⟨ok, List.mem_append_left _ hmem⟩
      · simp only [hsl, if_false]
        exact ⟨ok, hmem⟩
  · intro hnone
    obtain ⟨b', hb', hb0', p, hp, hle⟩ :=
      (checkPosition_none_iff slp pos env hsold).mp hnone
    exact ⟨p, hp, hle⟩

/-- Witness for C6 at a concrete input: `tPos` under `tEnv` emits a
take-profit sell of exactly `min (100 * 70 / 100) 80 = 70` tokens. -/
theorem C6_take_profit_sells_seventy_percent_witness :
    ∃ ok, Call.sell SellSource.takeProfit tPos.tokenAddress
      (min (tPos.initialTokenAmount * TakeProfitSellPercent / 100) 80) ok ∈
      (checkPosition 50 tPos tEnv).2 :=
  (C6_take_profit_sells_seventy_percent 50 tPos tEnv 80 (3 * 10 ^ 14)
    rfl rfl rfl (by decide) rfl (by decide)).2.1 rfl (by decide)
